import Mathlib

/-!
Verification of the `Event` dispatcher implemented in `src/event.py`.

The Python class `Event` keeps an `owner` and an ordered list `handlers` of
`(handler, boundArgs)` pairs.  Keyword-argument dictionaries are embedded as
association lists with Python `dict` semantics (`d[k] = v` replaces in place
if the key is present, otherwise appends; `base.update(upd)` sets every pair
of `upd` in turn).  Handlers are opaque values compared by equality, embedded
as identifiers; what a handler does when invoked (it may mutate the dispatcher
through its methods, or raise) is an environment `Behavior` supplied to `fire`.
`fire` returns the final dispatcher state, the log records emitted, the trace
of handler invocations, and whether some handler raised.
-/

namespace EventSpec

abbrev Key := String
abbrev Val := Int
abbrev HandlerId := Nat
abbrev Owner := Nat

/-- A Python keyword-argument dictionary, as an association list in insertion
order.  Dictionaries built from `**kwargs` have pairwise-distinct keys. -/
abbrev Dict := List (Key × Val)

/-- `d.keys()`. -/
def dictKeys (d : Dict) : List Key := d.map Prod.fst

/-- `k in d`. -/
def containsKey (d : Dict) (k : Key) : Bool := d.any (fun p => p.1 = k)

/-- `d[k]` as an option (first binding of `k` in the list). -/
def dictLookup (d : Dict) (k : Key) : Option Val :=
  match d with
  | [] => none
  | p :: rest => if p.1 = k then some p.2 else dictLookup rest k

/-- `d[k] = v`: replace in place when the key is present, append otherwise. -/
def dictUpdate (d : Dict) (k : Key) (v : Val) : Dict :=
  if containsKey d k then d.map (fun p => if p.1 = k then (k, v) else p)
  else d ++ [(k, v)]

/-- `base.copy()` followed by `.update(upd)`: set every pair of `upd` in turn. -/
def dictMerge (base upd : Dict) : Dict :=
  upd.foldl (fun acc p => dictUpdate acc p.1 p.2) base

/-- The intersection `set(fire_kargs.keys()) & set(handle_kwargs.keys())`
computed by `Event.fire` for one snapshot entry, as the list of fire-argument
keys also bound by the entry (only its emptiness and its element set are
used). -/
def conflictKeys (fireArgs bound : Dict) : List Key :=
  (dictKeys fireArgs).filter (fun k => containsKey bound k)

/-- Modelled from the spec: the `logger` collaborator referenced by
`src/event.py` is not defined under `src/` (no import or binding appears in the
file).  Per the spec it is an external logging collaborator that accepts a
formatted message plus structured values and never interrupts caller flow, and
the misspelled severity call `logger.eror` in the duplicate-handler branch is
to be treated as a standard error-level log.  Log records are embedded as data
carrying the structured values of the corresponding `logger.error` call. -/
inductive LogMsg where
  | duplicateHandler (h : HandlerId)
  | unknownHandler (h : HandlerId)
  | argConflict (keys : List Key)
deriving Repr, DecidableEq

/-- The state of a Python `Event` object: `self.owner` and `self.handlers`. -/
structure Event where
  owner : Owner
  handlers : List (HandlerId × Dict)
deriving Repr, DecidableEq

namespace Event

/-- `Event.__init__`: empty handler list, the given owner. -/
def init (owner : Owner) : Event := { owner := owner, handlers := [] }

/-- `Event.__assert_no_duplicate_handler`: walk the handler list and emit one
error-level record per entry whose handler equals the argument. -/
def assertNoDuplicateHandler (e : Event) (handler : HandlerId) : List LogMsg :=
  e.handlers.filterMap
    (fun p => if handler = p.1 then some (LogMsg.duplicateHandler p.1) else none)

/-- `Event.add_sys_handler`: duplicate check (log only), then insert the pair
at position 0; returns the updated object and the log records emitted. -/
def add_sys_handler (e : Event) (handler : HandlerId) (kwargs : Dict) :
    Event × List LogMsg :=
  ({ e with handlers := (handler, kwargs) :: e.handlers },
   e.assertNoDuplicateHandler handler)

/-- `Event.add_handler`: duplicate check (log only), then append the pair at
the end; returns the updated object and the log records emitted. -/
def add_handler (e : Event) (handler : HandlerId) (kwargs : Dict) :
    Event × List LogMsg :=
  ({ e with handlers := e.handlers ++ [(handler, kwargs)] },
   e.assertNoDuplicateHandler handler)

/-- `Event.has_handler`: true iff some entry's handler equals the argument. -/
def has_handler (e : Event) (handler : HandlerId) : Bool :=
  e.handlers.any (fun p => handler = p.1)

/-- The `for h, k in self.handlers: if handler == h:` scan of
`Event.remove_handler`: the first pair whose handler equals the argument. -/
def findHandler (l : List (HandlerId × Dict)) (handler : HandlerId) :
    Option (HandlerId × Dict) :=
  match l with
  | [] => none
  | p :: rest => if handler = p.1 then some p else findHandler rest handler

/-- Python `list.remove(x)`: drop the first element equal to `x`. -/
def listRemoveEq (l : List (HandlerId × Dict)) (x : HandlerId × Dict) :
    List (HandlerId × Dict) :=
  match l with
  | [] => []
  | y :: rest => if y = x then rest else y :: listRemoveEq rest x

/-- `Event.remove_handler`: find the first matching pair and remove it; if no
pair matches, log an error and leave the list unchanged.  Returns the updated
object (`return self`) and the log records emitted. -/
def remove_handler (e : Event) (handler : HandlerId) : Event × List LogMsg :=
  match findHandler e.handlers handler with
  | some p => ({ e with handlers := listRemoveEq e.handlers p }, [])
  | none => (e, [LogMsg.unknownHandler handler])

/-- `Event.get_handler_count`: `len(self.handlers)`. -/
def get_handler_count (e : Event) : Nat := e.handlers.length

/-- One handler invocation as performed by `fire`: the handler called, the
first positional argument (`self.owner` as read at that iteration), and the
keyword arguments — `none` for the `handler(self.owner)` branch taken when the
merged dictionary is empty, `some allArgs` for `handler(self.owner, **all_args)`. -/
structure Call where
  handler : HandlerId
  owner : Owner
  args : Option Dict
deriving Repr, DecidableEq

/-- What a handler does when invoked: given its identity, the positional
argument, the keyword arguments, and the current dispatcher state, it either
returns normally with the (possibly mutated) dispatcher state, or raises
(`none`), in which case the exception propagates out of `fire`. -/
abbrev Behavior := HandlerId → Owner → Option Dict → Event → Option Event

/-- Everything observable about one `fire` call: the dispatcher state when
`fire` returns (or when the exception escapes), the log records emitted, the
invocations performed in order, and whether a handler raised. -/
structure FireResult where
  event : Event
  log : List LogMsg
  calls : List Call
  raised : Bool
deriving Repr, DecidableEq

/-- The loop body of `Event.fire` over the snapshot `self.handlers[:]`.  For
each snapshot entry: compute the intersection of fire-argument keys and bound
keys and log it when non-empty; merge a copy of the bound arguments with the
fire arguments (fire-time wins); invoke the handler with the owner alone when
the merged dictionary is empty, with the merged keywords otherwise.  A raising
handler stops the loop with the exception propagating (`raised := true`). -/
def fireLoop (beh : Behavior) (fireArgs : Dict) :
    List (HandlerId × Dict) → Event → FireResult
  | [], e => { event := e, log := [], calls := [], raised := false }
  | (handler, handleKwargs) :: rest, e =>
    let intersectKeys := conflictKeys fireArgs handleKwargs
    let entryLog : List LogMsg :=
      if intersectKeys.length > 0 then [LogMsg.argConflict intersectKeys] else []
    let allArgs := dictMerge handleKwargs fireArgs
    let callArgs : Option Dict := if allArgs.length = 0 then none else some allArgs
    match beh handler e.owner callArgs e with
    | none =>
      { event := e, log := entryLog,
        calls := [⟨handler, e.owner, callArgs⟩], raised := true }
    | some e' =>
      let r := fireLoop beh fireArgs rest e'
      { event := r.event, log := entryLog ++ r.log,
        calls := ⟨handler, e.owner, callArgs⟩ :: r.calls, raised := r.raised }

/-- `Event.fire`: iterate over a copy of the handler list taken when the call
starts, threading the dispatcher state through the handler invocations. -/
def fire (beh : Behavior) (e : Event) (fireArgs : Dict) : FireResult :=
  fireLoop beh fireArgs e.handlers e

/-- The keyword arguments `fire` passes to the handler of a snapshot entry
with bound arguments `bound`: the merged dictionary, `none` when empty. -/
def mkCallArgs (bound fireArgs : Dict) : Option Dict :=
  if (dictMerge bound fireArgs).length = 0 then none else some (dictMerge bound fireArgs)

end Event

/-- A registration step: `add_sys_handler` or `add_handler`. -/
inductive Reg where
  | sys (h : HandlerId) (kwargs : Dict)
  | user (h : HandlerId) (kwargs : Dict)
deriving Repr, DecidableEq

/-- Perform one registration, discarding the log. -/
def applyReg (e : Event) (r : Reg) : Event :=
  match r with
  | .sys h kw => (e.add_sys_handler h kw).1
  | .user h kw => (e.add_handler h kw).1

/-- Perform a sequence of registrations in order. -/
def applyRegs (e : Event) (rs : List Reg) : Event := rs.foldl applyReg e

/-- The entries registered through `add_sys_handler`, in registration order. -/
def sysEntries (rs : List Reg) : List (HandlerId × Dict) :=
  rs.filterMap (fun r => match r with | .sys h kw => some (h, kw) | .user _ _ => none)

/-- The entries registered through `add_handler`, in registration order. -/
def userEntries (rs : List Reg) : List (HandlerId × Dict) :=
  rs.filterMap (fun r => match r with | .sys _ _ => none | .user h kw => some (h, kw))

/-- A handler body that returns normally without touching the dispatcher. -/
def behId : Event.Behavior := fun _ _ _ ev => some ev

/-- A handler body that unregisters itself and registers a fresh handler:
used to exercise list mutation during a fire. -/
def behSelfRemove : Event.Behavior :=
  fun h _ _ ev => some (((ev.remove_handler h).1.add_handler (h + 10) []).1)

/-- A handler body that raises when its identity is `3` and otherwise returns
normally without touching the dispatcher. -/
def behRaise3 : Event.Behavior := fun h _ _ ev => if h = 3 then none else some ev

end EventSpec

namespace EventSpec

theorem containsKey_iff (d : Dict) (k : Key) :
    containsKey d k = true ↔ k ∈ dictKeys d := by
  simp [containsKey, dictKeys, List.any_eq_true]

theorem dictLookup_append (d l : Dict) (k : Key) :
    dictLookup (d ++ l) k =
      match dictLookup d k with
      | some v => some v
      | none => dictLookup l k := by
  induction d with
  | nil => simp [dictLookup]
  | cons p rest ih =>
    by_cases hp : p.1 = k
    · simp [dictLookup, hp]
    · simp [dictLookup, hp, ih]

theorem dictLookup_eq_none_of_not_contains (d : Dict) (k : Key)
    (h : containsKey d k = false) : dictLookup d k = none := by
  induction d with
  | nil => rfl
  | cons p rest ih =>
    simp [containsKey] at h
    have h2 : containsKey rest k = false := by
      simp [containsKey]
      exact h.2
    simp [dictLookup, h.1, ih h2]

theorem dictLookup_map_update_self (d : Dict) (k : Key) (v : Val)
    (hc : containsKey d k = true) :
    dictLookup (d.map (fun p => if p.1 = k then (k, v) else p)) k = some v := by
  induction d with
  | nil => simp [containsKey] at hc
  | cons p rest ih =>
    by_cases hp : p.1 = k
    · simp [dictLookup, hp]
    · simp [containsKey, hp] at hc
      simp [dictLookup, hp, ih (by simp [containsKey, hc])]

theorem dictLookup_update_self (d : Dict) (k : Key) (v : Val) :
    dictLookup (dictUpdate d k v) k = some v := by
  unfold dictUpdate
  by_cases hc : containsKey d k = true
  · simp only [hc, if_true]
    exact dictLookup_map_update_self d k v hc
  · simp only [Bool.not_eq_true] at hc
    simp only [hc, Bool.false_eq_true, if_false]
    rw [dictLookup_append, dictLookup_eq_none_of_not_contains d k hc]
    simp [dictLookup]

theorem dictLookup_map_update_of_ne (d : Dict) (k k' : Key) (v : Val)
    (hne : k' ≠ k) :
    dictLookup (d.map (fun p => if p.1 = k then (k, v) else p)) k'
      = dictLookup d k' := by
  induction d with
  | nil => rfl
  | cons p rest ih =>
    by_cases hp : p.1 = k
    · have h1 : k ≠ k' := fun h => hne h.symm
      have h2 : ¬ p.1 = k' := by rw [hp]; exact h1
      simp [dictLookup, hp, h1, h2, ih]
    · by_cases hp' : p.1 = k'
      · simp [dictLookup, hp, hp', hne]
      · simp [dictLookup, hp, hp', ih]

theorem dictLookup_update_of_ne (d : Dict) (k k' : Key) (v : Val)
    (hne : k' ≠ k) :
    dictLookup (dictUpdate d k v) k' = dictLookup d k' := by
  unfold dictUpdate
  by_cases hc : containsKey d k = true
  · simp only [hc, if_true]
    exact dictLookup_map_update_of_ne d k k' v hne
  · simp only [Bool.not_eq_true] at hc
    simp only [hc, Bool.false_eq_true, if_false]
    rw [dictLookup_append]
    cases hd : dictLookup d k' with
    | some v' => rfl
    | none => simp [dictLookup, Ne.symm hne]

theorem dictLookup_merge_of_not_mem (f : Dict) (k : Key) (h : k ∉ dictKeys f) :
    ∀ b : Dict, dictLookup (dictMerge b f) k = dictLookup b k := by
  induction f with
  | nil => intro b; rfl
  | cons p rest ih =>
    intro b
    simp [dictKeys] at h
    have h1 : k ∉ dictKeys rest := by
      simp [dictKeys]
      intro q hq
      exact (h.2 q hq)
    rw [show dictMerge b (p :: rest) = dictMerge (dictUpdate b p.1 p.2) rest from rfl]
    rw [ih h1]
    exact dictLookup_update_of_ne _ _ _ _ h.1

theorem dictLookup_merge_of_lookup (f : Dict) (k : Key) (v : Val)
    (hnd : (dictKeys f).Nodup) (h : dictLookup f k = some v) :
    ∀ b : Dict, dictLookup (dictMerge b f) k = some v := by
  induction f with
  | nil => simp [dictLookup] at h
  | cons p rest ih =>
    intro b
    rw [show dictMerge b (p :: rest) = dictMerge (dictUpdate b p.1 p.2) rest from rfl]
    by_cases hp : p.1 = k
    · have hv : p.2 = v := by simpa [dictLookup, hp] using h
      have hnotin : k ∉ dictKeys rest := by
        simp [dictKeys] at hnd ⊢
        intro a hab
        apply hnd.1 a
        rw [hp]
        exact hab
      rw [dictLookup_merge_of_not_mem rest k hnotin]
      rw [show dictLookup (dictUpdate b p.1 p.2) k
            = dictLookup (dictUpdate b k v) k by rw [hp, hv]]
      exact dictLookup_update_self b k v
    · have h' : dictLookup rest k = some v := by simpa [dictLookup, hp] using h
      exact ih (by simp [dictKeys] at hnd ⊢; exact hnd.2) h' _

end EventSpec

namespace EventSpec

namespace Event

theorem fireLoop_noraise (beh : Behavior) (f : Dict)
    (hnr : ∀ h o a ev, ∃ ev', beh h o a ev = some ev') :
    ∀ (snap : List (HandlerId × Dict)) (e : Event),
      (fireLoop beh f snap e).calls.map (fun c => (c.handler, c.args))
          = snap.map (fun p => (p.1, mkCallArgs p.2 f))
        ∧ (fireLoop beh f snap e).raised = false := by
  intro snap
  induction snap with
  | nil => intro e; simp [fireLoop]
  | cons p rest ih =>
    intro e
    obtain ⟨ph, pk⟩ := p
    obtain ⟨e', he⟩ := hnr ph e.owner
      (if (dictMerge pk f).length = 0 then none else some (dictMerge pk f)) e
    simp only [fireLoop, he]
    constructor
    · simp [mkCallArgs, (ih e').1]
    · simp [(ih e').2]

theorem fireLoop_owner_calls (beh : Behavior) (f : Dict)
    (hyp : ∀ h o a ev, ∃ ev', beh h o a ev = some ev' ∧ ev'.owner = ev.owner) :
    ∀ (snap : List (HandlerId × Dict)) (e : Event),
      (fireLoop beh f snap e).calls
        = snap.map (fun p => ⟨p.1, e.owner, mkCallArgs p.2 f⟩) := by
  intro snap
  induction snap with
  | nil => intro e; simp [fireLoop]
  | cons p rest ih =>
    intro e
    obtain ⟨ph, pk⟩ := p
    obtain ⟨e', he, how⟩ := hyp ph e.owner
      (if (dictMerge pk f).length = 0 then none else some (dictMerge pk f)) e
    simp only [fireLoop, he]
    simp [mkCallArgs, ih e', how]

theorem fireLoop_conflict_mem (beh : Behavior) (f : Dict)
    (hnr : ∀ h o a ev, ∃ ev', beh h o a ev = some ev') :
    ∀ (snap : List (HandlerId × Dict)) (e : Event) (hId : HandlerId) (b : Dict),
      (hId, b) ∈ snap → conflictKeys f b ≠ [] →
      LogMsg.argConflict (conflictKeys f b) ∈ (fireLoop beh f snap e).log := by
  intro snap
  induction snap with
  | nil => intro e hId b hmem; simp at hmem
  | cons p rest ih =>
    intro e hId b hmem hconf
    obtain ⟨ph, pk⟩ := p
    obtain ⟨e', he⟩ := hnr ph e.owner
      (if (dictMerge pk f).length = 0 then none else some (dictMerge pk f)) e
    simp only [fireLoop, he]
    apply List.mem_append.mpr
    rcases List.mem_cons.mp hmem with heq | hmem'
    · left
      have hb : b = pk := by
        have := congrArg Prod.snd heq
        simpa using this
      subst hb
      have hlen : (conflictKeys f b).length > 0 :=
        List.length_pos.mpr hconf
      simp [hlen]
    · right
      exact ih e' hId b hmem' hconf

theorem fireLoop_raise_calls (beh : Behavior) (f : Dict) (h0 : HandlerId) (b0 : Dict)
    (hraise : ∀ o a ev, beh h0 o a ev = none)
    (hok : ∀ h o a ev, h ≠ h0 → ∃ ev', beh h o a ev = some ev') :
    ∀ (l1 l2 : List (HandlerId × Dict)) (e : Event),
      (∀ p ∈ l1, p.1 ≠ h0) →
      (fireLoop beh f (l1 ++ (h0, b0) :: l2) e).raised = true
      ∧ (fireLoop beh f (l1 ++ (h0, b0) :: l2) e).calls.map (fun c => c.handler)
          = l1.map Prod.fst ++ [h0] := by
  intro l1
  induction l1 with
  | nil =>
    intro l2 e _
    simp only [List.nil_append, fireLoop, hraise]
    simp
  | cons p rest ih =>
    intro l2 e hne
    obtain ⟨ph, pk⟩ := p
    have hph : ph ≠ h0 := hne (ph, pk) (List.mem_cons_self _ _)
    obtain ⟨e', he⟩ := hok ph e.owner
      (if (dictMerge pk f).length = 0 then none else some (dictMerge pk f)) e hph
    have hrest := ih l2 e' (fun q hq => hne q (List.mem_cons_of_mem _ hq))
    simp only [List.cons_append, fireLoop, he]
    constructor
    · simp [hrest.1]
    · simp [hrest.2]

theorem fireLoop_frame (beh : Behavior) (f : Dict)
    (hyp : ∀ h o a ev, beh h o a ev = none ∨ beh h o a ev = some ev) :
    ∀ (snap : List (HandlerId × Dict)) (e : Event),
      (fireLoop beh f snap e).event = e := by
  intro snap
  induction snap with
  | nil => intro e; rfl
  | cons p rest ih =>
    intro e
    obtain ⟨ph, pk⟩ := p
    rcases hyp ph e.owner
      (if (dictMerge pk f).length = 0 then none else some (dictMerge pk f)) e with hn | hs
    · simp only [fireLoop, hn]
    · simp only [fireLoop, hs]
      simp [ih e]

end Event

end EventSpec

namespace EventSpec

theorem applyRegs_handlers : ∀ (rs : List Reg) (e : Event),
    (applyRegs e rs).handlers
        = (sysEntries rs).reverse ++ e.handlers ++ userEntries rs
      ∧ (applyRegs e rs).owner = e.owner := by
  intro rs
  induction rs with
  | nil => intro e; simp [applyRegs, sysEntries, userEntries]
  | cons r rest ih =>
    intro e
    cases r with
    | sys h kw =>
      have hstep : applyRegs e (Reg.sys h kw :: rest)
          = applyRegs (Event.add_sys_handler e h kw).1 rest := rfl
      have := ih (Event.add_sys_handler e h kw).1
      rw [hstep]
      simp [Event.add_sys_handler, sysEntries, userEntries] at this ⊢
      rw [this.1]
      simp
      exact this.2
    | user h kw =>
      have hstep : applyRegs e (Reg.user h kw :: rest)
          = applyRegs (Event.add_handler e h kw).1 rest := rfl
      have := ih (Event.add_handler e h kw).1
      rw [hstep]
      simp [Event.add_handler, sysEntries, userEntries] at this ⊢
      rw [this.1]
      simp
      exact this.2

theorem has_handler_false_iff (e : Event) (h : HandlerId) :
    e.has_handler h = false ↔ ∀ p ∈ e.handlers, h ≠ p.1 := by
  simp [Event.has_handler]

theorem duplicate_logged (e : Event) (h : HandlerId)
    (hdup : e.has_handler h = true) :
    LogMsg.duplicateHandler h ∈ e.assertNoDuplicateHandler h := by
  simp [Event.has_handler] at hdup
  simp [Event.assertNoDuplicateHandler, List.mem_filterMap]
  exact hdup

theorem findHandler_none (l : List (HandlerId × Dict)) (h : HandlerId)
    (hne : ∀ p ∈ l, h ≠ p.1) : Event.findHandler l h = none := by
  induction l with
  | nil => rfl
  | cons p rest ih =>
    simp [Event.findHandler, hne p (List.mem_cons_self p rest),
      ih (fun q hq => hne q (List.mem_cons_of_mem p hq))]

theorem findHandler_append_of_none (l l2 : List (HandlerId × Dict)) (h : HandlerId)
    (hl : Event.findHandler l h = none) :
    Event.findHandler (l ++ l2) h = Event.findHandler l2 h := by
  induction l with
  | nil => rfl
  | cons p rest ih =>
    by_cases hp : h = p.1
    · simp [Event.findHandler, hp] at hl
    · simp [Event.findHandler, hp] at hl ⊢
      exact ih hl

theorem listRemoveEq_append (l : List (HandlerId × Dict)) (x : HandlerId × Dict)
    (hne : ∀ y ∈ l, y ≠ x) : Event.listRemoveEq (l ++ [x]) x = l := by
  induction l with
  | nil => simp [Event.listRemoveEq]
  | cons y rest ih =>
    simp [Event.listRemoveEq, hne y (List.mem_cons_self y rest),
      ih (fun z hz => hne z (List.mem_cons_of_mem y hz))]

theorem remove_after_add (e : Event) (h : HandlerId) (kw : Dict)
    (habs : e.has_handler h = false) :
    ((e.add_handler h kw).1.remove_handler h).1 = e := by
  have hne : ∀ p ∈ e.handlers, h ≠ p.1 := (has_handler_false_iff e h).mp habs
  have hfind : Event.findHandler (e.handlers ++ [(h, kw)]) h = some (h, kw) := by
    rw [findHandler_append_of_none _ _ _ (findHandler_none _ _ hne)]
    simp [Event.findHandler]
  have hrem : Event.listRemoveEq (e.handlers ++ [(h, kw)]) (h, kw) = e.handlers :=
    listRemoveEq_append _ _ (fun y hy heq => hne y hy (by rw [heq]))
  obtain ⟨ow, hs⟩ := e
  simp [Event.add_handler, Event.remove_handler] at hfind hrem ⊢
  rw [hfind]
  simpa using hrem

end EventSpec

namespace EventSpec

theorem entries_map_user (l : List (HandlerId × Dict)) :
    sysEntries (l.map (fun p => Reg.user p.1 p.2)) = []
    ∧ userEntries (l.map (fun p => Reg.user p.1 p.2)) = l := by
  induction l with
  | nil => exact ⟨rfl, rfl⟩
  | cons p rest ih =>
    constructor
    · simpa [sysEntries] using ih.1
    · simpa [userEntries] using ih.2

/-- C1: the entries invoked by a `fire` are exactly those present in the
handlers list at the moment iteration starts (the snapshot), invoked in that
list order and with the keyword arguments determined by each snapshot entry
and the fire arguments alone; handlers added or removed by a handler invoked
during that same fire (an arbitrary non-raising behaviour, which may mutate
the dispatcher state at every invocation) never change which snapshot entries
are invoked in that pass, so such mutations affect only later fires. -/
theorem c1_fire_snapshot (beh : Event.Behavior) (e : Event) (fireArgs : Dict)
    (hnr : ∀ h o a ev, ∃ ev', beh h o a ev = some ev') :
    (Event.fire beh e fireArgs).calls.map (fun c => (c.handler, c.args))
      = e.handlers.map (fun p => (p.1, Event.mkCallArgs p.2 fireArgs)) :=
  (Event.fireLoop_noraise beh fireArgs hnr e.handlers e).1

theorem c1_fire_snapshot_witness :
    (∀ h o a ev, ∃ ev', behSelfRemove h o a ev = some ev')
    ∧ (Event.fire behSelfRemove (⟨5, [(1, [("a", 1)]), (2, [])]⟩ : Event) []).calls.map
          (fun c => (c.handler, c.args))
        = (⟨5, [(1, [("a", 1)]), (2, [])]⟩ : Event).handlers.map
            (fun p => (p.1, Event.mkCallArgs p.2 [])) :=
  ⟨fun h o a ev => ⟨_, rfl⟩,
   c1_fire_snapshot behSelfRemove ⟨5, [(1, [("a", 1)]), (2, [])]⟩ []
     (fun h o a ev => ⟨_, rfl⟩)⟩

/-- C2: when a snapshot entry's bound-argument keys intersect the fire-argument
keys, the fire logs the conflict but no exception is raised, the handler is
still invoked, and every conflicting key is passed with its fire-time value
(fire-time overrides bound). -/
theorem c2_arg_conflict (beh : Event.Behavior) (e : Event) (fireArgs : Dict)
    (h : HandlerId) (b : Dict) (k : Key) (v : Val)
    (hnr : ∀ h o a ev, ∃ ev', beh h o a ev = some ev')
    (hnd : (dictKeys fireArgs).Nodup)
    (hmem : (h, b) ∈ e.handlers)
    (hconf : conflictKeys fireArgs b ≠ [])
    (hkb : containsKey b k = true)
    (hk : dictLookup fireArgs k = some v) :
    (Event.fire beh e fireArgs).raised = false
    ∧ LogMsg.argConflict (conflictKeys fireArgs b) ∈ (Event.fire beh e fireArgs).log
    ∧ (h, some (dictMerge b fireArgs))
        ∈ (Event.fire beh e fireArgs).calls.map (fun c => (c.handler, c.args))
    ∧ dictLookup (dictMerge b fireArgs) k = some v := by
  have hfl := Event.fireLoop_noraise beh fireArgs hnr e.handlers e
  have hlook : dictLookup (dictMerge b fireArgs) k = some v :=
    dictLookup_merge_of_lookup fireArgs k v hnd hk b
  refine ⟨hfl.2, ?_, ?_, hlook⟩
  · exact Event.fireLoop_conflict_mem beh fireArgs hnr e.handlers e h b hmem hconf
  · have h1 : (Event.fire beh e fireArgs).calls.map (fun c => (c.handler, c.args))
        = e.handlers.map (fun p => (p.1, Event.mkCallArgs p.2 fireArgs)) := hfl.1
    rw [h1]
    apply List.mem_map.mpr
    refine ⟨(h, b), hmem, ?_⟩
    have hne : dictMerge b fireArgs ≠ [] := by
      intro hemp
      rw [hemp] at hlook
      simp [dictLookup] at hlook
    simp [Event.mkCallArgs, List.length_eq_zero, hne]

theorem c2_arg_conflict_witness :
    ((dictKeys [("x", (2 : Val))]).Nodup)
    ∧ ((7, [("x", (1 : Val))]) ∈ (⟨0, [(7, [("x", 1)])]⟩ : Event).handlers)
    ∧ (conflictKeys [("x", 2)] [("x", 1)] ≠ [])
    ∧ (containsKey [("x", (1 : Val))] "x" = true)
    ∧ (dictLookup [("x", 2)] "x" = some 2)
    ∧ ((Event.fire behId (⟨0, [(7, [("x", 1)])]⟩ : Event) [("x", 2)]).raised = false
      ∧ LogMsg.argConflict (conflictKeys [("x", 2)] [("x", 1)])
          ∈ (Event.fire behId (⟨0, [(7, [("x", 1)])]⟩ : Event) [("x", 2)]).log
      ∧ (7, some (dictMerge [("x", 1)] [("x", 2)]))
          ∈ (Event.fire behId (⟨0, [(7, [("x", 1)])]⟩ : Event) [("x", 2)]).calls.map
              (fun c => (c.handler, c.args))
      ∧ dictLookup (dictMerge [("x", 1)] [("x", 2)]) "x" = some 2) :=
  ⟨by decide, by decide, by decide, by decide, by decide,
   c2_arg_conflict behId ⟨0, [(7, [("x", 1)])]⟩ [("x", 2)] 7 [("x", 1)] "x" 2
     (fun h o a ev => ⟨ev, rfl⟩) (by decide) (by decide) (by decide) (by decide)
     (by decide)⟩

end EventSpec

namespace EventSpec

/-- C3: registering an already-present handler, via `add_handler` or
`add_sys_handler`, emits an error-level diagnostic, is not rejected and
raises nothing to the caller (both operations are total and return the
dispatcher): the duplicate entry is still appended respectively prepended,
so registering the same handler twice increases `get_handler_count` by
exactly two. -/
theorem c3_duplicate_registration (e : Event) (h : HandlerId) (kw1 kw2 : Dict)
    (hdup : e.has_handler h = true) :
    LogMsg.duplicateHandler h ∈ (e.add_handler h kw1).2
    ∧ LogMsg.duplicateHandler h ∈ (e.add_sys_handler h kw1).2
    ∧ (e.add_handler h kw1).1.handlers = e.handlers ++ [(h, kw1)]
    ∧ (e.add_sys_handler h kw1).1.handlers = (h, kw1) :: e.handlers
    ∧ ((e.add_handler h kw1).1.add_handler h kw2).1.get_handler_count
        = e.get_handler_count + 2 := by
  refine ⟨duplicate_logged e h hdup, duplicate_logged e h hdup, rfl, rfl, ?_⟩
  simp [Event.add_handler, Event.get_handler_count]

theorem c3_duplicate_registration_witness :
    ((⟨0, [(4, [])]⟩ : Event).has_handler 4 = true)
    ∧ (LogMsg.duplicateHandler 4 ∈ ((⟨0, [(4, [])]⟩ : Event).add_handler 4 [("t", 1)]).2
      ∧ LogMsg.duplicateHandler 4 ∈ ((⟨0, [(4, [])]⟩ : Event).add_sys_handler 4 [("t", 1)]).2
      ∧ ((⟨0, [(4, [])]⟩ : Event).add_handler 4 [("t", 1)]).1.handlers
          = [(4, [])] ++ [(4, [("t", 1)])]
      ∧ ((⟨0, [(4, [])]⟩ : Event).add_sys_handler 4 [("t", 1)]).1.handlers
          = (4, [("t", 1)]) :: [(4, [])]
      ∧ (((⟨0, [(4, [])]⟩ : Event).add_handler 4 [("t", 1)]).1.add_handler 4 []).1.get_handler_count
          = (⟨0, [(4, [])]⟩ : Event).get_handler_count + 2) :=
  ⟨by decide,
   c3_duplicate_registration ⟨0, [(4, [])]⟩ 4 [("t", 1)] [] (by decide)⟩

/-- C4: removing a handler that is not registered logs an error, raises
nothing to the caller (the operation is total), leaves the dispatcher — in
particular `get_handler_count` — unchanged, and returns the dispatcher. -/
theorem c4_remove_absent (e : Event) (h : HandlerId)
    (habs : e.has_handler h = false) :
    e.remove_handler h = (e, [LogMsg.unknownHandler h])
    ∧ (e.remove_handler h).1.get_handler_count = e.get_handler_count := by
  have hne := (has_handler_false_iff e h).mp habs
  have hfind : Event.findHandler e.handlers h = none := findHandler_none _ _ hne
  constructor
  · simp [Event.remove_handler, hfind]
  · simp [Event.remove_handler, hfind]

theorem c4_remove_absent_witness :
    ((⟨1, [(7, [])]⟩ : Event).has_handler 9 = false)
    ∧ ((⟨1, [(7, [])]⟩ : Event).remove_handler 9
          = (⟨1, [(7, [])]⟩, [LogMsg.unknownHandler 9])
      ∧ ((⟨1, [(7, [])]⟩ : Event).remove_handler 9).1.get_handler_count
          = (⟨1, [(7, [])]⟩ : Event).get_handler_count) :=
  ⟨by decide, c4_remove_absent ⟨1, [(7, [])]⟩ 9 (by decide)⟩

/-- C5: `add_sys_handler` inserts its entry at position 0 of the ordered
list, and for every interleaving of `add_sys_handler` and `add_handler`
registrations starting from a fresh dispatcher, a fire invokes all the
system-registered handlers (latest first) before all the handlers registered
via `add_handler` (in registration order), regardless of the interleaving. -/
theorem c5_sys_handlers_first (owner : Owner) (rs : List Reg)
    (beh : Event.Behavior) (f : Dict) (e : Event) (h : HandlerId) (kw : Dict)
    (hnr : ∀ h o a ev, ∃ ev', beh h o a ev = some ev') :
    (e.add_sys_handler h kw).1.handlers = (h, kw) :: e.handlers
    ∧ (Event.fire beh (applyRegs (Event.init owner) rs) f).calls.map (fun c => c.handler)
        = ((sysEntries rs).reverse ++ userEntries rs).map Prod.fst := by
  refine ⟨rfl, ?_⟩
  have hreg := applyRegs_handlers rs (Event.init owner)
  have h1 : (Event.fire beh (applyRegs (Event.init owner) rs) f).calls.map
        (fun c => (c.handler, c.args))
      = (applyRegs (Event.init owner) rs).handlers.map
          (fun p => (p.1, Event.mkCallArgs p.2 f)) :=
    (Event.fireLoop_noraise beh f hnr
      (applyRegs (Event.init owner) rs).handlers (applyRegs (Event.init owner) rs)).1
  calc (Event.fire beh (applyRegs (Event.init owner) rs) f).calls.map (fun c => c.handler)
      = ((Event.fire beh (applyRegs (Event.init owner) rs) f).calls.map
          (fun c => (c.handler, c.args))).map Prod.fst := by
        rw [List.map_map]
        rfl
    _ = ((applyRegs (Event.init owner) rs).handlers.map
          (fun p => (p.1, Event.mkCallArgs p.2 f))).map Prod.fst := by
        rw [h1]
    _ = (applyRegs (Event.init owner) rs).handlers.map Prod.fst := by
        rw [List.map_map]
        rfl
    _ = ((sysEntries rs).reverse ++ (Event.init owner).handlers ++ userEntries rs).map
          Prod.fst := by
        rw [hreg.1]
    _ = ((sysEntries rs).reverse ++ userEntries rs).map Prod.fst := by
        simp [Event.init]

theorem c5_sys_handlers_first_witness :
    (((⟨0, [(8, [])]⟩ : Event).add_sys_handler 5 []).1.handlers = (5, []) :: [(8, [])])
    ∧ (Event.fire behId
          (applyRegs (Event.init 0) [Reg.user 1 [], Reg.sys 2 [], Reg.user 3 [], Reg.sys 4 []])
          []).calls.map (fun c => c.handler)
        = ((sysEntries [Reg.user 1 [], Reg.sys 2 [], Reg.user 3 [], Reg.sys 4 []]).reverse
            ++ userEntries [Reg.user 1 [], Reg.sys 2 [], Reg.user 3 [], Reg.sys 4 []]).map
            Prod.fst :=
  c5_sys_handlers_first 0 [Reg.user 1 [], Reg.sys 2 [], Reg.user 3 [], Reg.sys 4 []]
    behId [] ⟨0, [(8, [])]⟩ 5 [] (fun h o a ev => ⟨ev, rfl⟩)

/-- C6: for every sequence of `add_handler` registrations with pairwise
distinct handlers and no system handlers, starting from a fresh dispatcher, a
subsequent fire invokes the handlers in exactly the order they were
registered. -/
theorem c6_registration_order (owner : Owner) (l : List (HandlerId × Dict))
    (beh : Event.Behavior) (f : Dict)
    (hdist : (l.map Prod.fst).Nodup)
    (hnr : ∀ h o a ev, ∃ ev', beh h o a ev = some ev') :
    (Event.fire beh (applyRegs (Event.init owner) (l.map (fun p => Reg.user p.1 p.2))) f).calls.map
        (fun c => c.handler)
      = l.map Prod.fst := by
  have hent := entries_map_user l
  have hreg := applyRegs_handlers (l.map (fun p => Reg.user p.1 p.2)) (Event.init owner)
  have h1 : (Event.fire beh (applyRegs (Event.init owner) (l.map (fun p => Reg.user p.1 p.2))) f).calls.map
        (fun c => (c.handler, c.args))
      = (applyRegs (Event.init owner) (l.map (fun p => Reg.user p.1 p.2))).handlers.map
          (fun p => (p.1, Event.mkCallArgs p.2 f)) :=
    (Event.fireLoop_noraise beh f hnr
      (applyRegs (Event.init owner)
        (l.map (fun p : HandlerId × Dict => Reg.user p.1 p.2))).handlers
      (applyRegs (Event.init owner)
        (l.map (fun p : HandlerId × Dict => Reg.user p.1 p.2)))).1
  calc (Event.fire beh (applyRegs (Event.init owner) (l.map (fun p => Reg.user p.1 p.2))) f).calls.map
        (fun c => c.handler)
      = ((Event.fire beh (applyRegs (Event.init owner) (l.map (fun p => Reg.user p.1 p.2))) f).calls.map
          (fun c => (c.handler, c.args))).map Prod.fst := by
        rw [List.map_map]
        rfl
    _ = ((applyRegs (Event.init owner) (l.map (fun p => Reg.user p.1 p.2))).handlers.map
          (fun p => (p.1, Event.mkCallArgs p.2 f))).map Prod.fst := by
        rw [h1]
    _ = (applyRegs (Event.init owner) (l.map (fun p => Reg.user p.1 p.2))).handlers.map
          Prod.fst := by
        rw [List.map_map]
        rfl
    _ = l.map Prod.fst := by
        rw [hreg.1, hent.1, hent.2]
        simp [Event.init]

theorem c6_registration_order_witness :
    (([(3, [("a", (1 : Val))]), (1, []), (2, [])].map Prod.fst).Nodup)
    ∧ (Event.fire behId
          (applyRegs (Event.init 9)
            ([(3, [("a", (1 : Val))]), (1, []), (2, [])].map (fun p => Reg.user p.1 p.2)))
          []).calls.map (fun c => c.handler)
        = [(3, [("a", (1 : Val))]), (1, []), (2, [])].map Prod.fst :=
  ⟨by decide,
   c6_registration_order 9 [(3, [("a", 1)]), (1, []), (2, [])] behId []
     (by decide) (fun h o a ev => ⟨ev, rfl⟩)⟩

end EventSpec

namespace EventSpec

/-- C7: for every snapshot entry, `fire` invokes the handler with the owner as
first positional argument and the merged arguments (a copy of the entry's
bound arguments overlaid with the fire arguments) as keyword arguments; when
the merged argument set is empty — in particular when a handler registered
with no bound arguments is fired with no fire arguments — the handler is
invoked with only the owner and no keyword arguments. -/
theorem c7_call_shape (beh : Event.Behavior) (e : Event) (f : Dict)
    (hyp : ∀ h o a ev, ∃ ev', beh h o a ev = some ev' ∧ ev'.owner = ev.owner) :
    (Event.fire beh e f).calls
        = e.handlers.map
            (fun p => { handler := p.1, owner := e.owner, args := Event.mkCallArgs p.2 f })
    ∧ (∀ h : HandlerId, (h, ([] : Dict)) ∈ e.handlers → f = [] →
        ({ handler := h, owner := e.owner, args := none } : Event.Call)
          ∈ (Event.fire beh e f).calls) := by
  have h1 : (Event.fire beh e f).calls
      = e.handlers.map
          (fun p => { handler := p.1, owner := e.owner, args := Event.mkCallArgs p.2 f }) :=
    Event.fireLoop_owner_calls beh f hyp e.handlers e
  refine ⟨h1, ?_⟩
  intro h hmem hf
  subst hf
  rw [h1]
  apply List.mem_map.mpr
  exact ⟨(h, []), hmem, rfl⟩

theorem c7_call_shape_witness :
    (∀ h o a ev, ∃ ev', behId h o a ev = some ev' ∧ ev'.owner = ev.owner)
    ∧ ((Event.fire behId (⟨3, [(9, []), (4, [("b", 7)])]⟩ : Event) []).calls
          = (⟨3, [(9, []), (4, [("b", 7)])]⟩ : Event).handlers.map
              (fun p => { handler := p.1, owner := 3, args := Event.mkCallArgs p.2 [] })
      ∧ (∀ h : HandlerId,
            (h, ([] : Dict)) ∈ (⟨3, [(9, []), (4, [("b", 7)])]⟩ : Event).handlers → ([] : Dict) = [] →
            ({ handler := h, owner := 3, args := none } : Event.Call)
              ∈ (Event.fire behId (⟨3, [(9, []), (4, [("b", 7)])]⟩ : Event) []).calls)) :=
  ⟨fun h o a ev => ⟨ev, rfl, rfl⟩,
   c7_call_shape behId ⟨3, [(9, []), (4, [("b", 7)])]⟩ []
     (fun h o a ev => ⟨ev, rfl, rfl⟩)⟩

/-- C9: when the handler of some snapshot entry raises and every handler
before it in the snapshot returns normally, the exception propagates out of
`fire` and the invocations performed are exactly the snapshot entries up to
and including the raising one — the later snapshot entries are not invoked. -/
theorem c9_handler_raise_aborts (beh : Event.Behavior) (e : Event) (f : Dict)
    (h0 : HandlerId) (b0 : Dict) (l1 l2 : List (HandlerId × Dict))
    (hsplit : e.handlers = l1 ++ (h0, b0) :: l2)
    (hraise : ∀ o a ev, beh h0 o a ev = none)
    (hok : ∀ h o a ev, h ≠ h0 → ∃ ev', beh h o a ev = some ev')
    (hne : ∀ p ∈ l1, p.1 ≠ h0) :
    (Event.fire beh e f).raised = true
    ∧ (Event.fire beh e f).calls.map (fun c => c.handler)
        = l1.map Prod.fst ++ [h0] := by
  have hall := Event.fireLoop_raise_calls beh f h0 b0 hraise hok l1 l2 e hne
  have hfe : Event.fire beh e f = Event.fireLoop beh f (l1 ++ (h0, b0) :: l2) e := by
    rw [Event.fire, hsplit]
  rw [hfe]
  exact hall

theorem c9_handler_raise_aborts_witness :
    ((⟨0, [(1, []), (3, []), (9, [])]⟩ : Event).handlers
        = [(1, [])] ++ (3, ([] : Dict)) :: [(9, [])])
    ∧ (∀ p ∈ [((1 : HandlerId), ([] : Dict))], p.1 ≠ 3)
    ∧ ((Event.fire behRaise3 (⟨0, [(1, []), (3, []), (9, [])]⟩ : Event) []).raised = true
      ∧ (Event.fire behRaise3 (⟨0, [(1, []), (3, []), (9, [])]⟩ : Event) []).calls.map
            (fun c => c.handler)
          = [((1 : HandlerId), ([] : Dict))].map Prod.fst ++ [3]) :=
  ⟨rfl, by decide,
   c9_handler_raise_aborts behRaise3 ⟨0, [(1, []), (3, []), (9, [])]⟩ [] 3 []
     [(1, [])] [(9, [])] rfl (fun o a ev => rfl)
     (fun h o a ev hne => ⟨ev, by simp [behRaise3, hne]⟩) (by decide)⟩

/-- C10: `fire` itself never writes the dispatcher state: if every invoked
handler either returns without mutating the dispatcher or raises, the
dispatcher — its handlers list and its owner — is identical before and after
the fire, both when the pass completes and when it terminates early because a
handler raised. -/
theorem c10_fire_preserves_state (beh : Event.Behavior) (e : Event) (f : Dict)
    (hyp : ∀ h o a ev, beh h o a ev = none ∨ beh h o a ev = some ev) :
    (Event.fire beh e f).event = e :=
  Event.fireLoop_frame beh f hyp e.handlers e

theorem c10_fire_preserves_state_witness :
    (∀ h o a ev, behRaise3 h o a ev = none ∨ behRaise3 h o a ev = some ev)
    ∧ (Event.fire behRaise3 (⟨2, [(1, []), (3, []), (9, [])]⟩ : Event) [("k", 4)]).event
        = (⟨2, [(1, []), (3, []), (9, [])]⟩ : Event) :=
  ⟨fun h o a ev =>
    if h3 : h = 3 then Or.inl (by simp [behRaise3, h3]) else Or.inr (by simp [behRaise3, h3]),
   c10_fire_preserves_state behRaise3 ⟨2, [(1, []), (3, []), (9, [])]⟩ [("k", 4)]
     (fun h o a ev =>
       if h3 : h = 3 then Or.inl (by simp [behRaise3, h3])
       else Or.inr (by simp [behRaise3, h3]))⟩

/-- C8: for a handler not currently registered, `add_handler` followed by
`remove_handler` leaves `has_handler` false and returns `get_handler_count`
to its pre-add value, one less than its value after the add; indeed the whole
dispatcher state returns to what it was before the add. -/
theorem c8_add_then_remove (e : Event) (h : HandlerId) (kw : Dict)
    (habs : e.has_handler h = false) :
    ((e.add_handler h kw).1.remove_handler h).1.has_handler h = false
    ∧ ((e.add_handler h kw).1.remove_handler h).1.get_handler_count + 1
        = (e.add_handler h kw).1.get_handler_count
    ∧ ((e.add_handler h kw).1.remove_handler h).1 = e := by
  have hr := remove_after_add e h kw habs
  refine ⟨?_, ?_, hr⟩
  · rw [hr]
    exact habs
  · rw [hr]
    simp [Event.add_handler, Event.get_handler_count]

theorem c8_add_then_remove_witness :
    ((⟨6, [(2, [])]⟩ : Event).has_handler 5 = false)
    ∧ ((((⟨6, [(2, [])]⟩ : Event).add_handler 5 [("z", 3)]).1.remove_handler 5).1.has_handler 5
          = false
      ∧ ((((⟨6, [(2, [])]⟩ : Event).add_handler 5 [("z", 3)]).1.remove_handler 5).1.get_handler_count + 1
          = ((⟨6, [(2, [])]⟩ : Event).add_handler 5 [("z", 3)]).1.get_handler_count)
      ∧ (((⟨6, [(2, [])]⟩ : Event).add_handler 5 [("z", 3)]).1.remove_handler 5).1
          = (⟨6, [(2, [])]⟩ : Event)) :=
  ⟨by decide, c8_add_then_remove ⟨6, [(2, [])]⟩ 5 [("z", 3)] (by decide)⟩

end EventSpec
